import Mathlib

/-!
Verification of the spectroterm signal-to-visual pipeline (`src/main.py`).

The Python source is shallowly embedded: floats become real numbers,
Python/numpy ints become `Int`/`Nat`, in-place numpy array updates become
pure per-band step functions, and the points where numpy would raise an
exception become `Except.error` results.  The animation engine and the
renderer work on integers and rational timestamps, so those definitions
are fully executable; the spectrum analyzer works on real numbers.
-/

namespace Spectroterm

/-! ### Definitions: animation engine and renderer (`main`) -/

/-- Python `int()` truncation toward zero, applied to a rational value
(used for `max_fall = int(fall_speed * dt)` in `main`). -/
def pyInt (x : ℚ) : ℤ := if 0 ≤ x then ⌊x⌋ else ⌈x⌉

/-- One band of the falling-bars update, `src/main.py` lines 182-187:
`max_fall = int(fall_speed * dt)`; if `raw_bar_heights[i] >= prev_bar_heights[i]`
the new height is the raw target, otherwise
`max(raw_bar_heights[i], prev_bar_heights[i] - max_fall)`. -/
def fall_step (fall_speed : ℤ) (dt : ℚ) (prev raw : ℤ) : ℤ :=
  if prev ≤ raw then raw else max raw (prev - pyInt ((fall_speed : ℚ) * dt))

/-- One band of the peak-marker update, `src/main.py` lines 195-201:
if `bh > peak_heights[i]` the peak is raised to `bh` and its timestamp set
to `now`; otherwise, if `now - peak_times[i] > peak_hold`, the peak is reset
to `bh` with timestamp `now`; otherwise peak and timestamp are unchanged. -/
def peak_step (peak_hold now : ℚ) (bh peak : ℤ) (ptime : ℚ) : ℤ × ℚ :=
  if peak < bh then (bh, now)
  else if peak_hold < now - ptime then (bh, now)
  else (peak, ptime)

/-- One row of the drawn spectrum, `src/main.py` lines 205-214: for every
bar the cell is the bar character when `y >= bar_height - bar` and a blank
otherwise; then, when peaks are enabled, the cell in column `x` is
overwritten with the peak character when `y == bar_height - peak_heights[x]`. -/
def render_row (bar_character peak_character : Char) (peaks : Bool) (bar_height : ℕ)
    (bar_heights peak_heights : List ℤ) (y : ℕ) : List Char :=
  let line := bar_heights.map (fun bar =>
    if (bar_height : ℤ) - bar ≤ (y : ℤ) then bar_character else ' ')
  if peaks then
    (line.zip peak_heights).map (fun cp =>
      if (y : ℤ) = (bar_height : ℤ) - cp.2 then peak_character else cp.1)
  else line

/-- The drawn spectrum window, `src/main.py` lines 204-215: rows are drawn
for `y in range(bar_height - 1)`, row `0` at the top. -/
def render_grid (bar_character peak_character : Char) (peaks : Bool) (bar_height : ℕ)
    (bar_heights peak_heights : List ℤ) : List (List Char) :=
  (List.range (bar_height - 1)).map
    (render_row bar_character peak_character peaks bar_height bar_heights peak_heights)

/-- `np.clip(v, lo, hi)` on integers, `src/main.py` line 173. -/
def np_clip (v lo hi : ℤ) : ℤ := min (max v lo) hi

/-! ### Definitions: band mapper and spectrum analyzer (`log_band_volumes`) -/

/-- Entry `i` of `np.logspace(np.log10(min_freq), np.log10(max_freq), num_bands + 1)`
(`src/main.py` line 18): `logspace` is `10 ** linspace(log10(min_freq),
log10(max_freq), num_bands + 1)` with step `(stop - start) / num_bands`. -/
noncomputable def log_edges (min_freq max_freq : ℝ) (num_bands : ℕ) (i : ℕ) : ℝ :=
  (10 : ℝ) ^ (Real.logb 10 min_freq +
    (i : ℝ) * ((Real.logb 10 max_freq - Real.logb 10 min_freq) / (num_bands : ℝ)))

/-- The whole `band_edges` array of `src/main.py` line 18. -/
noncomputable def band_edges (min_freq max_freq : ℝ) (num_bands : ℕ) : List ℝ :=
  (List.range (num_bands + 1)).map (log_edges min_freq max_freq num_bands)

/-- Magnitude of bin `k` of `np.fft.rfft(data)` (`src/main.py` line 14):
the absolute value of the discrete Fourier transform
`X_k = sum_j data[j] * exp(-2*pi*I*j*k/n)`. -/
noncomputable def dft_mag (data : List ℝ) (k : ℕ) : ℝ :=
  Complex.abs (∑ j ∈ Finset.range data.length,
    (data.getD j 0 : ℂ) *
      Complex.exp (-(2 * (Real.pi : ℂ) * Complex.I * (j : ℂ) * (k : ℂ)) / (data.length : ℂ)))

/-- `np.fft.rfftfreq(n, 1 / sample_rate)` (`src/main.py` line 15):
`n // 2 + 1` bin frequencies `k * sample_rate / n`. -/
noncomputable def rfftfreq (n : ℕ) (sample_rate : ℤ) : List ℝ :=
  (List.range (n / 2 + 1)).map (fun k => (k : ℝ) * (sample_rate : ℝ) / (n : ℝ))

open Classical in
/-- The binary search performed by `np.searchsorted(a, v)` (side `left`):
on `[lo, hi)` probe `mid = (lo + hi) / 2` and recurse right when
`a[mid] < v`, left otherwise. -/
noncomputable def ss_go (a : List ℝ) (v : ℝ) (lo hi : ℕ) : ℕ :=
  if h : lo < hi then
    if a.getD ((lo + hi) / 2) 0 < v then ss_go a v ((lo + hi) / 2 + 1) hi
    else ss_go a v lo ((lo + hi) / 2)
  else lo
termination_by hi - lo
decreasing_by all_goals omega

/-- `np.searchsorted(a, v)` (`src/main.py` lines 27-28). -/
noncomputable def searchsorted (a : List ℝ) (v : ℝ) : ℕ := ss_go a v 0 a.length

open Classical in
/-- `np.where((freqs >= left) & (freqs < right))[0]` (`src/main.py` line 23):
the set of bin indices directly covered by the band. -/
noncomputable def covered_bins (freqs : List ℝ) (left right : ℝ) : Finset ℕ :=
  (Finset.range freqs.length).filter
    (fun k => left ≤ freqs.getD k 0 ∧ freqs.getD k 0 < right)

open Classical in
/-- The candidate bins built by `src/main.py` lines 27-38 for a band with no
covered bin: `left_bin - 1` when `left_bin > 0`, `left_bin` when
`left_bin < len(freqs)`, and the same for `right_bin` when it differs from
`left_bin`; `list(set(bins))` deduplicates, modelled by a `Finset`. -/
noncomputable def candidate_bins (freqs : List ℝ) (left right : ℝ) : Finset ℕ :=
  (if 0 < searchsorted freqs left then {searchsorted freqs left - 1} else ∅) ∪
  (if searchsorted freqs left < freqs.length then {searchsorted freqs left} else ∅) ∪
  (if 0 < searchsorted freqs right ∧ searchsorted freqs right ≠ searchsorted freqs left
    then {searchsorted freqs right - 1} else ∅) ∪
  (if searchsorted freqs right < freqs.length ∧
      searchsorted freqs right ≠ searchsorted freqs left
    then {searchsorted freqs right} else ∅)

/-- The raw interpolation weight of bin `b`, `src/main.py` lines 40-44:
`1 / (abs(freqs[b] - band_center) + 1e-6)` with `band_center = (left + right) / 2`. -/
noncomputable def bin_weight (freqs : List ℝ) (left right : ℝ) (b : ℕ) : ℝ :=
  1 / (|freqs.getD b 0 - (left + right) / 2| + 1e-6)

open Classical in
/-- The magnitude assigned to one band, `src/main.py` lines 23-49: the RMS of
the covered bins' magnitudes when the band covers at least one bin, otherwise
the weighted RMS over the candidate bins with normalized inverse-distance
weights (`weights /= np.sum(weights)`). -/
noncomputable def band_magnitude (raw freqs : List ℝ) (left right : ℝ) : ℝ :=
  if (covered_bins freqs left right).Nonempty then
    Real.sqrt ((∑ k ∈ covered_bins freqs left right, (raw.getD k 0) ^ 2) /
      ((covered_bins freqs left right).card : ℝ))
  else
    Real.sqrt (∑ b ∈ candidate_bins freqs left right, (raw.getD b 0) ^ 2 *
      (bin_weight freqs left right b /
        ∑ c ∈ candidate_bins freqs left right, bin_weight freqs left right c))

/-- The decibel conversion of `src/main.py` lines 52-53:
`20 * log10(magnitude / max_ref + 1e-12)` clamped below by `-90`
(`np.maximum(db, -90)`). -/
noncomputable def to_db (max_ref magnitude : ℝ) : ℝ :=
  max (20 * Real.logb 10 (magnitude / max_ref + 1e-12)) (-90)

/-- The per-band computation of `log_band_volumes` (`src/main.py` lines 14-53)
after the points where numpy can raise: one dB value per band. -/
noncomputable def log_band_volumes_core (data : List ℝ) (sample_rate : ℤ) (num_bands : ℕ)
    (min_freq max_freq max_ref : ℝ) : List ℝ :=
  (List.range num_bands).map (fun i =>
    to_db max_ref (band_magnitude
      ((List.range (data.length / 2 + 1)).map (dft_mag data))
      (rfftfreq data.length sample_rate)
      (log_edges min_freq max_freq num_bands i)
      (log_edges min_freq max_freq num_bands (i + 1))))

/-- `log_band_volumes` (`src/main.py` lines 11-53) with its exception
behaviour made explicit: `np.fft.rfft` raises `ValueError` on an empty
buffer (line 14), `1 / sample_rate` raises `ZeroDivisionError` when
`sample_rate == 0` (line 15), and `np.logspace` / `np.zeros` raise
`ValueError` when `num_bands` is negative (lines 18-19).  No other input
raises: in particular a negative `sample_rate` or any `min_freq` / `max_freq`
flows through the numeric code without an exception. -/
noncomputable def log_band_volumes (data : List ℝ) (sample_rate num_bands : ℤ)
    (min_freq max_freq max_ref : ℝ) : Except String (List ℝ) :=
  if data.length = 0 then .error "ValueError"
  else if sample_rate = 0 then .error "ZeroDivisionError"
  else if num_bands < 0 then .error "ValueError"
  else .ok (log_band_volumes_core data sample_rate num_bands.toNat min_freq max_freq max_ref)

/-- Whether a call to the analyzer returned a frame (`Except.ok`) rather
than raising. -/
def returns_frame (r : Except String (List ℝ)) : Bool :=
  match r with
  | .ok _ => true
  | .error _ => false

/-! ### Definitions: heights pipeline (`main`, lines 169-215) -/

open Classical in
/-- `np.interp(x, (x0, x1), (y0, y1))` (`src/main.py` line 173): clamped
linear interpolation with two knots. -/
noncomputable def np_interp2 (x x0 x1 y0 y1 : ℝ) : ℝ :=
  if x ≤ x0 then y0
  else if x1 ≤ x then y1
  else y0 + (x - x0) * (y1 - y0) / (x1 - x0)

open Classical in
/-- `np.round` followed by `.astype(int)` on an already-rounded value
(`src/main.py` line 173): round half to even. -/
noncomputable def np_round (x : ℝ) : ℤ :=
  if x - ⌊x⌋ < 1/2 then ⌊x⌋
  else if 1/2 < x - ⌊x⌋ then ⌊x⌋ + 1
  else if Even ⌊x⌋ then ⌊x⌋ else ⌊x⌋ + 1

/-- `src/main.py` line 173: target height of one band,
`np.clip(np.round(np.interp(db, (min_db, max_db), (0, bar_height))).astype(int), 0, bar_height)`. -/
noncomputable def raw_height (min_db max_db : ℤ) (H : ℕ) (db : ℝ) : ℤ :=
  np_clip (np_round (np_interp2 db (min_db : ℝ) (max_db : ℝ) 0 (H : ℝ))) 0 (H : ℤ)

/-- The first frame of the pipeline of `main` (`src/main.py` lines 169-215):
analyze the sample buffer, turn the dB frame into clipped integer heights
(line 173), take them as the bar heights (first frame: `prev_bar_heights is
None`, line 179-180), initialize the peak state from them and run the peak
loop (lines 191-201), and draw the grid (lines 204-215). -/
noncomputable def first_frame (data : List ℝ) (sample_rate num_bands : ℤ)
    (min_freq max_freq max_ref : ℝ) (min_db max_db : ℤ) (H : ℕ) (peaks : Bool)
    (now peak_hold : ℚ) (bar_character peak_character : Char) :
    Except String (List (List Char)) :=
  Except.map (fun dbs =>
    let heights := dbs.map (raw_height min_db max_db H)
    let pks := heights.map (fun h => (peak_step peak_hold now h h now).1)
    render_grid bar_character peak_character peaks H heights pks)
    (log_band_volumes data sample_rate num_bands min_freq max_freq max_ref)

/-! ### Helper lemmas: animation engine and renderer -/

lemma pyInt_of_nonneg {x : ℚ} (h : 0 ≤ x) : pyInt x = ⌊x⌋ := if_pos h

lemma peak_step_self_fst (hold now : ℚ) (h : ℤ) : (peak_step hold now h h now).1 = h := by
  unfold peak_step
  rw [if_neg (lt_irrefl h)]
  split <;> rfl

lemma render_row_cons (bc pc : Char) (peaks : Bool) (H : ℕ) (b : ℤ) (bs : List ℤ)
    (p : ℤ) (ps : List ℤ) (y : ℕ) :
    render_row bc pc peaks H (b :: bs) (p :: ps) y =
      (if peaks = true ∧ (y : ℤ) = (H : ℤ) - p then pc
        else if (H : ℤ) - b ≤ (y : ℤ) then bc else ' ')
        :: render_row bc pc peaks H bs ps y := by
  cases peaks
  · simp [render_row]
  · by_cases h : (y : ℤ) = (H : ℤ) - p
    · simp [render_row, h]
    · simp [render_row, h]

lemma getD_map_range {α : Type} (f : ℕ → α) (d : α) (n y : ℕ) (h : y < n) :
    ((List.range n).map f).getD y d = f y := by
  rw [List.getD_eq_getElem?_getD]
  simp [List.getElem?_map, List.getElem?_range h]

lemma render_row_getD (bc pc : Char) (peaks : Bool) (H : ℕ) (bars pks : List ℤ) (y x : ℕ)
    (hx : x < bars.length) (hl : pks.length = bars.length) :
    (render_row bc pc peaks H bars pks y).getD x ' ' =
      if peaks = true ∧ (y : ℤ) = (H : ℤ) - pks.getD x 0 then pc
      else if (H : ℤ) - bars.getD x 0 ≤ (y : ℤ) then bc else ' ' := by
  induction bars generalizing pks x with
  | nil => simp at hx
  | cons b bs ih =>
    cases pks with
    | nil => simp at hl
    | cons p ps =>
      rw [render_row_cons]
      cases x with
      | zero => simp
      | succ x =>
        simp only [List.getD_cons_succ]
        exact ih ps x (by simpa using hx) (by simpa using hl)

lemma zip_replicate_same {α β : Type} (a : α) (b : β) (n : ℕ) :
    (List.replicate n a).zip (List.replicate n b) = List.replicate n (a, b) := by
  induction n with
  | zero => rfl
  | succ m ih => simp [List.replicate_succ, ih]

lemma render_row_replicate_zero (bc pc : Char) (peaks : Bool) (H n y : ℕ) (hy : y < H - 1) :
    render_row bc pc peaks H (List.replicate n 0) (List.replicate n 0) y =
      List.replicate n ' ' := by
  have h1 : ¬ (H ≤ y) := by omega
  have h2 : ¬ (y = H) := by omega
  cases peaks
  · simp [render_row, h1]
  · simp [render_row, h1, h2, zip_replicate_same]

lemma render_grid_blank (bc pc : Char) (peaks : Bool) (H n : ℕ) :
    render_grid bc pc peaks H (List.replicate n 0) (List.replicate n 0) =
      List.replicate (H - 1) (List.replicate n ' ') := by
  unfold render_grid
  rw [List.eq_replicate_iff]
  refine ⟨by simp, ?_⟩
  intro row hrow
  simp only [List.mem_map, List.mem_range] at hrow
  obtain ⟨y, hy, rfl⟩ := hrow
  exact render_row_replicate_zero bc pc peaks H n y hy

/-! ### Helper lemmas: band mapper -/

lemma log_edges_formula (minf maxf : ℝ) (n : ℕ) (h0 : 0 < minf) (h1 : minf < maxf) (i : ℕ) :
    log_edges minf maxf n i = minf * (maxf / minf) ^ ((i : ℝ) / (n : ℝ)) := by
  have hm : 0 < maxf := h0.trans h1
  unfold log_edges
  rw [Real.rpow_add (by norm_num : (0:ℝ) < 10),
    Real.rpow_logb (by norm_num) (by norm_num) h0]
  congr 1
  rw [show (i : ℝ) * ((Real.logb 10 maxf - Real.logb 10 minf) / (n : ℝ)) =
      (Real.logb 10 maxf - Real.logb 10 minf) * ((i : ℝ) / (n : ℝ)) by ring,
    Real.rpow_mul (by norm_num : (0:ℝ) ≤ 10),
    Real.rpow_sub (by norm_num : (0:ℝ) < 10),
    Real.rpow_logb (by norm_num) (by norm_num) h0,
    Real.rpow_logb (by norm_num) (by norm_num) hm]

lemma log_edges_lt (minf maxf : ℝ) (n : ℕ) (h0 : 0 < minf) (h1 : minf < maxf) (hn : 0 < n)
    {i j : ℕ} (hij : i < j) : log_edges minf maxf n i < log_edges minf maxf n j := by
  unfold log_edges
  rw [Real.rpow_lt_rpow_left_iff (by norm_num : (1:ℝ) < 10)]
  have hb : Real.logb 10 minf < Real.logb 10 maxf := Real.logb_lt_logb (by norm_num) h0 h1
  have hc : 0 < (Real.logb 10 maxf - Real.logb 10 minf) / (n : ℝ) := by
    apply div_pos (by linarith)
    exact_mod_cast hn
  have hij2 : (i : ℝ) < (j : ℝ) := by exact_mod_cast hij
  nlinarith

lemma log_edges_zero (minf maxf : ℝ) (n : ℕ) (h0 : 0 < minf) :
    log_edges minf maxf n 0 = minf := by
  unfold log_edges
  norm_num
  exact Real.rpow_logb (by norm_num) (by norm_num) h0

lemma log_edges_last (minf maxf : ℝ) (n : ℕ) (h0 : 0 < minf) (h1 : minf < maxf) (hn : 0 < n) :
    log_edges minf maxf n n = maxf := by
  have hm : 0 < maxf := h0.trans h1
  have hn2 : (n : ℝ) ≠ 0 := by positivity
  unfold log_edges
  rw [show Real.logb 10 minf +
      (n : ℝ) * ((Real.logb 10 maxf - Real.logb 10 minf) / (n : ℝ)) =
      Real.logb 10 maxf by field_simp]
  exact Real.rpow_logb (by norm_num) (by norm_num) hm

lemma sixteen_rpow (x : ℝ) : (16 : ℝ) ^ x = (2 : ℝ) ^ (4 * x) := by
  rw [show (16:ℝ) = (2:ℝ) ^ ((4:ℕ) : ℝ) by rw [Real.rpow_natCast]; norm_num,
    ← Real.rpow_mul (by norm_num : (0:ℝ) ≤ 2)]
  norm_num

lemma band_edges_concrete : band_edges 100 1600 4 = [100, 200, 400, 800, 1600] := by
  have h : ∀ i : ℕ, log_edges 100 1600 4 i = 100 * (2 : ℝ) ^ i := by
    intro i
    rw [log_edges_formula 100 1600 4 (by norm_num) (by norm_num) i,
      show (1600:ℝ)/100 = 16 by norm_num, sixteen_rpow, ← Real.rpow_natCast 2 i]
    congr 1
    push_cast
    ring_nf
  rw [band_edges, show List.range 5 = [0, 1, 2, 3, 4] by rfl]
  simp only [List.map, h]
  norm_num

/-! ### Helper lemmas: spectrum analyzer -/

lemma ss_go_le (a : List ℝ) (v : ℝ) :
    ∀ (fuel lo hi : ℕ), hi - lo ≤ fuel → lo ≤ hi → ss_go a v lo hi ≤ hi := by
  intro fuel
  induction fuel with
  | zero =>
    intro lo hi hf hle
    rw [ss_go, dif_neg (by omega)]
    omega
  | succ m ih =>
    intro lo hi hf hle
    rw [ss_go]
    split
    · split
      · exact ih _ _ (by omega) (by omega)
      · exact le_trans (ih _ _ (by omega) (by omega)) (by omega)
    · omega

lemma searchsorted_le (a : List ℝ) (v : ℝ) : searchsorted a v ≤ a.length :=
  ss_go_le a v a.length 0 a.length (by omega) (by omega)

lemma candidate_bins_nonempty (freqs : List ℝ) (left right : ℝ) (hne : freqs ≠ []) :
    (candidate_bins freqs left right).Nonempty := by
  have hlen : 0 < freqs.length := List.length_pos.mpr hne
  unfold candidate_bins
  by_cases h : 0 < searchsorted freqs left
  · exact ⟨searchsorted freqs left - 1, by simp [h]⟩
  · have h0 : searchsorted freqs left = 0 := by omega
    refine ⟨0, ?_⟩
    simp [h0, hlen]

lemma bin_weight_pos (freqs : List ℝ) (left right : ℝ) (b : ℕ) :
    0 < bin_weight freqs left right b := by
  unfold bin_weight
  positivity

lemma normalized_weights_sum (freqs : List ℝ) (left right : ℝ) (hne : freqs ≠ []) :
    (∑ b ∈ candidate_bins freqs left right,
      bin_weight freqs left right b /
        ∑ c ∈ candidate_bins freqs left right, bin_weight freqs left right c) = 1 := by
  have hW : 0 < ∑ c ∈ candidate_bins freqs left right, bin_weight freqs left right c :=
    Finset.sum_pos (fun b _ => bin_weight_pos freqs left right b)
      (candidate_bins_nonempty freqs left right hne)
  rw [← Finset.sum_div, div_self hW.ne']

lemma getD_zero_of_all_zero (l : List ℝ) (h : ∀ x ∈ l, x = 0) (j : ℕ) : l.getD j 0 = 0 := by
  induction l generalizing j with
  | nil => simp
  | cons a as ih =>
    cases j with
    | zero => simpa using h a (by simp)
    | succ j => exact ih (fun x hx => h x (by simp [hx])) j

lemma dft_mag_zero (data : List ℝ) (h : ∀ x ∈ data, x = 0) (k : ℕ) : dft_mag data k = 0 := by
  unfold dft_mag
  have hterm : ∀ j ∈ Finset.range data.length,
      (data.getD j 0 : ℂ) *
        Complex.exp (-(2 * (Real.pi : ℂ) * Complex.I * (j : ℂ) * (k : ℂ)) /
          (data.length : ℂ)) = 0 := by
    intro j _
    rw [getD_zero_of_all_zero data h j]
    simp
  rw [Finset.sum_congr rfl hterm]
  simp

lemma to_db_zero (max_ref : ℝ) : to_db max_ref 0 = -90 := by
  unfold to_db
  rw [zero_div, zero_add,
    show (1e-12 : ℝ) = (10:ℝ) ^ ((-12 : ℝ)) by
      rw [show ((-12:ℝ)) = ((-12 : ℤ) : ℝ) by norm_num, Real.rpow_intCast]; norm_num,
    Real.logb_rpow (by norm_num) (by norm_num)]
  norm_num

lemma band_magnitude_zero (raw freqs : List ℝ) (l r : ℝ) (hraw : ∀ j, raw.getD j 0 = 0) :
    band_magnitude raw freqs l r = 0 := by
  unfold band_magnitude
  split
  · have h : ∀ k ∈ covered_bins freqs l r, (raw.getD k 0) ^ 2 = 0 := fun k _ => by
      rw [hraw]; ring
    rw [Finset.sum_congr rfl h]
    simp
  · have h : ∀ b ∈ candidate_bins freqs l r, (raw.getD b 0) ^ 2 *
        (bin_weight freqs l r b /
          ∑ c ∈ candidate_bins freqs l r, bin_weight freqs l r c) = 0 := fun b _ => by
      rw [hraw]; ring
    rw [Finset.sum_congr rfl h]
    simp

lemma core_silent (data : List ℝ) (sr : ℤ) (nb : ℕ) (minf maxf ref : ℝ)
    (hz : ∀ x ∈ data, x = 0) :
    log_band_volumes_core data sr nb minf maxf ref = List.replicate nb (-90) := by
  unfold log_band_volumes_core
  have hraw : ∀ j, ((List.range (data.length / 2 + 1)).map (dft_mag data)).getD j 0 = 0 := by
    apply getD_zero_of_all_zero
    intro x hx
    simp only [List.mem_map] at hx
    obtain ⟨k, _, rfl⟩ := hx
    exact dft_mag_zero data hz k
  rw [List.eq_replicate_iff]
  constructor
  · simp
  · intro b hb
    simp only [List.mem_map] at hb
    obtain ⟨i, _, rfl⟩ := hb
    rw [band_magnitude_zero _ _ _ _ hraw, to_db_zero]

lemma log_band_volumes_ok (data : List ℝ) (sr nb : ℤ) (minf maxf ref : ℝ)
    (hd : data ≠ []) (hsr : sr ≠ 0) (hnb : 0 ≤ nb) :
    log_band_volumes data sr nb minf maxf ref =
      .ok (log_band_volumes_core data sr nb.toNat minf maxf ref) := by
  unfold log_band_volumes
  rw [if_neg (by simpa using hd), if_neg hsr, if_neg (by omega)]

/-! ### Helper lemmas: heights pipeline -/

lemma np_round_intCast (m : ℤ) : np_round (m : ℝ) = m := by
  unfold np_round
  rw [Int.floor_intCast, if_pos (by norm_num)]

lemma raw_height_floor (min_db max_db : ℤ) (H : ℕ) (h : -90 ≤ min_db) :
    raw_height min_db max_db H (-90) = 0 := by
  unfold raw_height np_interp2
  rw [if_pos (by exact_mod_cast h : (-90 : ℝ) ≤ (min_db : ℝ)),
    show (0:ℝ) = ((0:ℤ):ℝ) by norm_num, np_round_intCast]
  unfold np_clip
  omega

/-! ### Claim C1: band edges -/

open Classical in
/-- Claim C1: for every valid configuration (`0 < min_freq < max_freq`,
`0 < num_bands`) the band edges satisfy
`edges[i] = min_freq * (max_freq / min_freq) ^ (i / num_bands)`; the edge
list has length `num_bands + 1`, is strictly increasing, starts at
`min_freq` and ends at `max_freq`; and `(100, 1600, 4)` yields
`[100, 200, 400, 800, 1600]`. -/
theorem band_edges_spec (minf maxf : ℝ) (n : ℕ)
    (h0 : 0 < minf) (h1 : minf < maxf) (hn : 0 < n) :
    (band_edges minf maxf n).length = n + 1 ∧
    (∀ i : ℕ, log_edges minf maxf n i = minf * (maxf / minf) ^ ((i : ℝ) / (n : ℝ))) ∧
    List.Pairwise (· < ·) (band_edges minf maxf n) ∧
    log_edges minf maxf n 0 = minf ∧
    log_edges minf maxf n n = maxf ∧
    band_edges 100 1600 4 = [100, 200, 400, 800, 1600] := by
  refine ⟨by simp [band_edges], log_edges_formula minf maxf n h0 h1, ?_,
    log_edges_zero minf maxf n h0, log_edges_last minf maxf n h0 h1 hn,
    band_edges_concrete⟩
  unfold band_edges
  exact List.Pairwise.map _ (fun a b hab => log_edges_lt minf maxf n h0 h1 hn hab)
    (List.pairwise_lt_range (n + 1))

theorem band_edges_spec_witness :
    (0 : ℝ) < 100 ∧ (100 : ℝ) < 1600 ∧ 0 < 4 ∧ (band_edges 100 1600 4).length = 4 + 1 :=
  ⟨by norm_num, by norm_num, by norm_num,
    (band_edges_spec 100 1600 4 (by norm_num) (by norm_num) (by norm_num)).1⟩

/-! ### Claim C2: falling bars -/

/-- Claim C2: for every band and frame with `dt > 0` (and a nonnegative
configured fall speed), if the target height is at least the current height
the new height is the target (instant attack); otherwise the new height is
`max(target, current - floor(fall_speed * dt))`, so the bar falls by at most
`floor(fall_speed * dt)` rows and never below the target; in particular
`current = 10`, `target = 0`, `fall_speed = 5`, `dt = 1` gives `5`. -/
theorem fall_step_spec (fall_speed : ℤ) (dt : ℚ) (prev raw : ℤ)
    (hdt : 0 < dt) (hfs : 0 ≤ fall_speed) :
    (prev ≤ raw → fall_step fall_speed dt prev raw = raw) ∧
    (raw < prev →
      fall_step fall_speed dt prev raw = max raw (prev - ⌊(fall_speed : ℚ) * dt⌋) ∧
      prev - fall_step fall_speed dt prev raw ≤ ⌊(fall_speed : ℚ) * dt⌋ ∧
      raw ≤ fall_step fall_speed dt prev raw) ∧
    fall_step 5 1 10 0 = 5 := by
  have hnn : (0:ℚ) ≤ (fall_speed : ℚ) * dt := mul_nonneg (by exact_mod_cast hfs) hdt.le
  have hfl : (0:ℤ) ≤ ⌊(fall_speed : ℚ) * dt⌋ := Int.floor_nonneg.mpr hnn
  refine ⟨fun h => by simp [fall_step, h], fun h => ?_, by norm_num [fall_step, pyInt]⟩
  have h2 : ¬ prev ≤ raw := by omega
  rw [fall_step, if_neg h2, pyInt_of_nonneg hnn]
  exact ⟨rfl, by omega, le_max_left _ _⟩

theorem fall_step_spec_witness :
    (0 : ℚ) < 1 ∧ (0 : ℤ) ≤ 5 ∧ fall_step 5 1 10 0 = 5 :=
  ⟨by norm_num, by norm_num, (fall_step_spec 5 1 10 0 (by norm_num) (by norm_num)).2.2⟩

/-! ### Claim C3: peak hold -/

/-- Claim C3 counterexample: at the hold boundary (`elapsed = peak_hold`,
here `now - ptime = 2 = peak_hold`, bar height `3` not exceeding the stored
peak `5`) the code does NOT reset the peak — `peak_step` keeps `(5, 0)` —
although the claim (reset once `elapsed >= peak_hold_duration`) demands a
reset down to `3`. -/
theorem peak_step_hold_boundary :
    (2 : ℚ) ≤ 2 - 0 ∧ (3 : ℤ) ≤ 5 ∧ peak_step 2 2 3 5 0 = (5, 0) ∧ (5 : ℤ) ≠ 3 := by
  refine ⟨by norm_num, by norm_num, ?_, by norm_num⟩
  norm_num [peak_step]

/-- Claim C3 (amended): after every per-band peak update the stored peak is
at least the current bar height; the peak is raised (timestamp reset to
`now`) exactly when the bar height exceeds the stored peak; and, when it
does not, the peak resets down to the bar height exactly when the elapsed
time since it was last raised is strictly greater than `peak_hold` (the
code uses `now - peak_times[i] > peak_hold`, not `>=`). -/
theorem peak_step_spec (hold now : ℚ) (bh peak : ℤ) (pt : ℚ) :
    bh ≤ (peak_step hold now bh peak pt).1 ∧
    (peak < bh → peak_step hold now bh peak pt = (bh, now)) ∧
    (bh ≤ peak → hold < now - pt → peak_step hold now bh peak pt = (bh, now)) ∧
    (bh ≤ peak → now - pt ≤ hold → peak_step hold now bh peak pt = (peak, pt)) := by
  unfold peak_step
  refine ⟨?_, fun h => ?_, fun h h2 => ?_, fun h h2 => ?_⟩
  · rcases lt_or_le peak bh with h | h
    · rw [if_pos h]
    · rw [if_neg (not_lt.mpr h)]
      split
      · exact le_refl bh
      · exact h
  · rw [if_pos h]
  · rw [if_neg (by omega), if_pos h2]
  · rw [if_neg (by omega), if_neg (not_lt.mpr h2)]

theorem peak_step_spec_witness :
    (1 : ℤ) ≤ 5 ∧ (2 : ℚ) < 3 - 0 ∧ peak_step 2 3 1 5 0 = (1, 3) :=
  ⟨by norm_num, by norm_num, (peak_step_spec 2 3 1 5 0).2.2.1 (by norm_num) (by norm_num)⟩

/-! ### Claim C4: silence and the dB floor -/

/-- Claim C4: for every all-zero sample buffer of positive length and every
valid configuration the analyzer raises no error and returns a frame whose
bands all equal the dB floor `-90`; and every dB value in any frame the
analyzer returns is at least the floor, the value being
`20 * log10(magnitude / max_ref + 1e-12)` clamped from below by `-90`. -/
theorem analyzer_silence_floor :
    (∀ (data : List ℝ) (sr nb : ℤ) (minf maxf ref : ℝ),
      0 < data.length → (∀ x ∈ data, x = 0) → 0 < sr → 0 < nb →
      0 < minf → minf < maxf →
      log_band_volumes data sr nb minf maxf ref =
        .ok (List.replicate nb.toNat (-90))) ∧
    (∀ (data : List ℝ) (sr nb : ℤ) (minf maxf ref : ℝ) (l : List ℝ),
      log_band_volumes data sr nb minf maxf ref = .ok l → ∀ v ∈ l, -90 ≤ v) := by
  constructor
  · intro data sr nb minf maxf ref hd hz hsr hnb _ _
    rw [log_band_volumes_ok data sr nb minf maxf ref (List.length_pos.mp hd)
      (by omega) (by omega), core_silent data sr nb.toNat minf maxf ref hz]
  · intro data sr nb minf maxf ref l hok v hv
    unfold log_band_volumes at hok
    split at hok
    · simp at hok
    · split at hok
      · simp at hok
      · split at hok
        · simp at hok
        · injection hok with hok
          subst hok
          unfold log_band_volumes_core at hv
          simp only [List.mem_map] at hv
          obtain ⟨i, _, rfl⟩ := hv
          exact le_max_right _ _

theorem analyzer_silence_floor_witness :
    log_band_volumes [0] 1 1 1 2 3 = .ok [(-90 : ℝ)] := by
  have h := analyzer_silence_floor.1 [0] 1 1 1 2 3 (by norm_num)
    (by intro x hx; simpa using hx) (by norm_num) (by norm_num) (by norm_num) (by norm_num)
  simpa using h

/-! ### Claim C5: rendered cells -/

/-- Claim C5 counterexample: the drawing loop is `for y in range(bar_height-1)`,
so with `plot_height = 2` and a full-height bar the grid has a single row —
row `y = plot_height - 1 = 1` (which the claim includes, and at which its
formula demands the bar character since `1 >= 2 - 2`) is never drawn. -/
theorem render_bottom_row_missing :
    (render_grid '#' '_' false 2 [2] [0]).length = 1 ∧ (1 : ℕ) < 2 ∧
    ((render_grid '#' '_' false 2 [2] [0]).getD 1 []).getD 0 ' ' = ' ' ∧
    ((2 : ℤ) - 2 ≤ (1 : ℤ)) ∧ '#' ≠ ' ' := by decide

/-- Claim C5 (amended): for every column `x` and every drawn row
`y < plot_height - 1` (the code's loop `range(bar_height - 1)` omits the
bottom row), the rendered cell is the bar character if
`y >= plot_height - bar_heights[x]` and blank otherwise, except that when
peaks are enabled and `y == plot_height - peak_heights[x]` the cell is the
peak character regardless of the bar test. -/
theorem render_cell_spec (bc pc : Char) (peaks : Bool) (H : ℕ) (bars pks : List ℤ) (x y : ℕ)
    (hy : y < H - 1) (hx : x < bars.length) (hl : pks.length = bars.length) :
    ((render_grid bc pc peaks H bars pks).getD y []).getD x ' ' =
      if peaks = true ∧ (y : ℤ) = (H : ℤ) - pks.getD x 0 then pc
      else if (H : ℤ) - bars.getD x 0 ≤ (y : ℤ) then bc else ' ' := by
  rw [render_grid, getD_map_range _ _ _ _ hy, render_row_getD bc pc peaks H bars pks y x hx hl]

theorem render_cell_spec_witness :
    ((render_grid '#' '_' true 3 [2] [1]).getD 0 []).getD 0 ' ' = ' ' := by
  rw [render_cell_spec '#' '_' true 3 [2] [1] 0 0 (by decide) (by decide) rfl]
  decide

/-! ### Claim C6: interpolation weights -/

/-- Claim C6: for a band whose interval `[left, right)` covers no FFT bin
(and a nonempty bin list), the candidate bins derived from the insertion
points of `left` and `right` are nonempty, each candidate's weight is
`1 / (|bin_freq - band_center| + 1e-6)`, the normalized weights sum to `1`
exactly, and the band magnitude is the weighted RMS over those candidates
with the normalized weights. -/
theorem bandweights_spec (raw freqs : List ℝ) (left right : ℝ)
    (hne : freqs ≠ []) (hempty : covered_bins freqs left right = ∅) :
    (candidate_bins freqs left right).Nonempty ∧
    (∀ b : ℕ, bin_weight freqs left right b =
      1 / (|freqs.getD b 0 - (left + right) / 2| + 1e-6)) ∧
    (∑ b ∈ candidate_bins freqs left right,
      bin_weight freqs left right b /
        ∑ c ∈ candidate_bins freqs left right, bin_weight freqs left right c) = 1 ∧
    band_magnitude raw freqs left right =
      Real.sqrt (∑ b ∈ candidate_bins freqs left right, (raw.getD b 0) ^ 2 *
        (bin_weight freqs left right b /
          ∑ c ∈ candidate_bins freqs left right, bin_weight freqs left right c)) := by
  refine ⟨candidate_bins_nonempty freqs left right hne, fun b => rfl,
    normalized_weights_sum freqs left right hne, ?_⟩
  unfold band_magnitude
  rw [if_neg (by rw [hempty]; exact Finset.not_nonempty_empty)]

theorem bandweights_spec_witness :
    [(0:ℝ), 1] ≠ [] ∧ (candidate_bins [(0:ℝ), 1] 100 200).Nonempty := by
  have hempty : covered_bins [(0:ℝ), 1] 100 200 = ∅ := by
    unfold covered_bins
    rw [Finset.filter_eq_empty_iff]
    intro k hk
    fin_cases hk <;> simp
  exact ⟨by simp, (bandweights_spec [0, 0] [(0:ℝ), 1] 100 200 (by simp) hempty).1⟩

/-! ### Claim C7: configuration validation -/

/-- Claim C7 counterexample: with `min_freq = 200 >= max_freq = 100` (a
configuration the claim says must fail with a configuration error) the band
computation performs no validation and returns a frame. -/
theorem no_minfreq_validation :
    (100 : ℝ) ≤ 200 ∧
    returns_frame (log_band_volumes [1, 1] 44100 2 200 100 3000) = true := by
  refine ⟨by norm_num, ?_⟩
  rw [log_band_volumes_ok [1, 1] 44100 2 200 100 3000 (by simp) (by norm_num) (by norm_num)]
  rfl

/-- Claim C7 (amended): the code performs no configuration validation at all:
for any nonempty buffer, nonzero sample rate and `num_bands >= 0` it returns
a frame regardless of `min_freq` and `max_freq` (including `min_freq <= 0`,
`min_freq >= max_freq` and `num_bands = 0`); the only band-count failure is
the incidental numpy `ValueError` when `num_bands < 0`. -/
theorem no_config_validation (data : List ℝ) (sr nb : ℤ) (minf maxf ref : ℝ)
    (hd : data ≠ []) (hsr : sr ≠ 0) (hnb : 0 ≤ nb) :
    returns_frame (log_band_volumes data sr nb minf maxf ref) = true ∧
    (∀ nb2 : ℤ, nb2 < 0 →
      log_band_volumes data sr nb2 minf maxf ref = .error "ValueError") := by
  constructor
  · rw [log_band_volumes_ok data sr nb minf maxf ref hd hsr hnb]
    rfl
  · intro nb2 h
    unfold log_band_volumes
    rw [if_neg (by simpa using hd), if_neg hsr, if_pos h]

theorem no_config_validation_witness :
    returns_frame (log_band_volumes [1] 1 0 0 0 0) = true :=
  (no_config_validation [1] 1 0 0 0 0 (by simp) (by norm_num) (by norm_num)).1

/-! ### Claim C8: analyzer input errors -/

/-- Claim C8 counterexample: with a nonempty buffer and the negative sample
rate `-1` (which the claim says must fail with an input error) the analyzer
raises nothing and returns a frame — `np.fft.rfftfreq` accepts a negative
spacing. -/
theorem negative_rate_no_error :
    (-1 : ℤ) ≤ 0 ∧ [(1 : ℝ)] ≠ [] ∧
    returns_frame (log_band_volumes [1] (-1) 1 30 16000 3000) = true := by
  refine ⟨by norm_num, by simp, ?_⟩
  rw [log_band_volumes_ok [1] (-1) 1 30 16000 3000 (by simp) (by norm_num) (by norm_num)]
  rfl

/-- Claim C8 (amended): the analyzer fails if and only if the sample buffer
is empty (`np.fft.rfft` raises `ValueError`), the sample rate is exactly `0`
(`1 / sample_rate` raises `ZeroDivisionError`), or the band count is
negative (`np.logspace` / `np.zeros` raise `ValueError`); for every other
input — including negative sample rates — it returns a frame. -/
theorem analyzer_error_iff (data : List ℝ) (sr nb : ℤ) (minf maxf ref : ℝ) :
    returns_frame (log_band_volumes data sr nb minf maxf ref) = false ↔
      (data = [] ∨ sr = 0 ∨ nb < 0) := by
  unfold log_band_volumes
  by_cases hd : data.length = 0
  · simp [hd, returns_frame, List.length_eq_zero.mp hd]
  · rw [if_neg hd]
    by_cases hsr : sr = 0
    · simp [hsr, returns_frame]
    · rw [if_neg hsr]
      by_cases hnb : nb < 0
      · simp [hnb, returns_frame]
      · rw [if_neg hnb]
        simp [returns_frame, hsr, hnb]
        intro h
        exact hd (by simp [h])

/-! ### Claim C9: silent buffer through the full pipeline -/

lemma raw_height_cex : raw_height (-180) 0 20 (-90) = 10 := by
  have h : np_interp2 (-90) ((-180 : ℤ) : ℝ) ((0 : ℤ) : ℝ) 0 ((20 : ℕ) : ℝ) =
      ((10 : ℤ) : ℝ) := by
    unfold np_interp2
    rw [if_neg (by push_cast; norm_num), if_neg (by push_cast; norm_num)]
    push_cast
    norm_num
  unfold raw_height
  rw [h, np_round_intCast]
  decide

/-- Claim C9 counterexample: with the valid configuration `min_db = -180`,
`max_db = 0`, `plot_height = 20`, one band, a silent two-sample buffer maps
to `-90` dB, which interpolates to bar height `10`, so the rendered grid has
a filled cell (the bar character at row 10) — not zero filled cells as the
claim states for every configuration. -/
theorem silent_pipeline_filled_cell :
    (-180 : ℤ) < 0 ∧
    first_frame [0, 0] 2 1 100 200 1 (-180) 0 20 false 0 0 '#' '_' =
      .ok (render_grid '#' '_' false 20 [10] [10]) ∧
    ((render_grid '#' '_' false 20 [10] [10]).getD 10 []).getD 0 ' ' = '#' := by
  refine ⟨by norm_num, ?_, by decide⟩
  unfold first_frame
  rw [log_band_volumes_ok [0, 0] 2 1 100 200 1 (by simp) (by norm_num) (by norm_num),
    core_silent [0, 0] 2 (1 : ℤ).toNat 100 200 1 (by intro x hx; simpa using hx)]
  simp only [Except.map]
  congr 1
  norm_num [raw_height_cex, peak_step_self_fst]

/-- Claim C9 (amended): for every configuration with `min_db >= -90` (and
`min_db < max_db`, positive sample rate and band count), feeding an all-zero
sample buffer through the full pipeline produces a rendered grid with zero
filled cells — every drawn cell is blank.  (For `min_db < -90` the floor
value `-90` interpolates to a positive bar height and cells are filled, so
the claim's `any valid min_db` fails.) -/
theorem silent_pipeline_blank (data : List ℝ) (sr nb : ℤ) (minf maxf ref : ℝ)
    (mindb maxdb : ℤ) (H : ℕ) (peaks : Bool) (now hold : ℚ) (bc pc : Char)
    (hd : 0 < data.length) (hz : ∀ x ∈ data, x = 0) (hsr : 0 < sr) (hnb : 0 < nb)
    (hdb : -90 ≤ mindb) (_hdb2 : mindb < maxdb) :
    first_frame data sr nb minf maxf ref mindb maxdb H peaks now hold bc pc =
      .ok (List.replicate (H - 1) (List.replicate nb.toNat ' ')) := by
  unfold first_frame
  rw [log_band_volumes_ok data sr nb minf maxf ref (List.length_pos.mp hd)
    (by omega) (by omega), core_silent data sr nb.toNat minf maxf ref hz]
  simp only [Except.map]
  congr 1
  simp only [List.map_replicate, raw_height_floor mindb maxdb H hdb, peak_step_self_fst]
  exact render_grid_blank bc pc peaks H nb.toNat

theorem silent_pipeline_blank_witness :
    first_frame [0] 1 1 1 2 3 (-90) 0 3 true 0 2 '#' '_' =
      .ok (List.replicate 2 (List.replicate 1 ' ')) := by
  have h := silent_pipeline_blank [0] 1 1 1 2 3 (-90) 0 3 true 0 2 '#' '_'
    (by norm_num) (by intro x hx; simpa using hx) (by norm_num) (by norm_num)
    (by norm_num) (by norm_num)
  simpa using h

/-! ### Claim C10: truncation of the per-frame fall -/

/-- Claim C10: on a frame where the bar is falling (`target < current`,
`dt > 0`, nonnegative fall speed), the descent is exactly
`min(current - target, floor(fall_speed * dt))`; whenever
`fall_speed * dt < 1` the bar does not move at all; and across two
consecutive frames (`fall_speed = 5`, `dt = 1/10` each) the total descent
(zero) is strictly less than `floor(fall_speed * total elapsed time)`. -/
theorem fall_truncation (fall_speed : ℤ) (dt : ℚ) (prev raw : ℤ)
    (hdt : 0 < dt) (hfs : 0 ≤ fall_speed) :
    (raw < prev →
      prev - fall_step fall_speed dt prev raw = min (prev - raw) ⌊(fall_speed : ℚ) * dt⌋) ∧
    (raw < prev → (fall_speed : ℚ) * dt < 1 → fall_step fall_speed dt prev raw = prev) ∧
    (fall_step 5 (1/10) (fall_step 5 (1/10) 10 0) 0 = 10 ∧
      (10 : ℤ) - 10 < ⌊(5 : ℚ) * (1/10 + 1/10)⌋) := by
  have hnn : (0:ℚ) ≤ (fall_speed : ℚ) * dt := mul_nonneg (by exact_mod_cast hfs) hdt.le
  have hfl : (0:ℤ) ≤ ⌊(fall_speed : ℚ) * dt⌋ := Int.floor_nonneg.mpr hnn
  refine ⟨fun h => ?_, fun h h1 => ?_, by norm_num [fall_step, pyInt], by norm_num⟩
  · rw [fall_step, if_neg (by omega), pyInt_of_nonneg hnn]
    omega
  · have h0 : ⌊(fall_speed : ℚ) * dt⌋ = 0 := by
      rw [Int.floor_eq_zero_iff]; exact ⟨hnn, h1⟩
    rw [fall_step, if_neg (by omega), pyInt_of_nonneg hnn, h0]
    omega

theorem fall_truncation_witness :
    (0 : ℚ) < 1/10 ∧ (0 : ℤ) ≤ 5 ∧
    10 - fall_step 5 (1/10) 10 0 = min ((10 : ℤ) - 0) ⌊(5 : ℚ) * (1/10)⌋ :=
  ⟨by norm_num, by norm_num,
    (fall_truncation 5 (1/10) 10 0 (by norm_num) (by norm_num)).1 (by norm_num)⟩

end Spectroterm
